import Mathlib

/-!
Verification of the opencode-image-compress plugin core.

JavaScript strings are modelled as lists of characters, JavaScript numbers
as rationals (all arithmetic performed by the program stays exact on the
values it manipulates), byte buffers as lists of naturals, and insertion
ordered Maps as association lists.  The sharp codec library is an external
capability and is modelled as an oracle: a record supplying the metadata of
the input image and the encoder output for each (resize, encode-options)
request.
-/

set_option maxHeartbeats 1000000

/-- JavaScript string, modelled as a list of characters. -/
abbrev JStr := List Char

/-- Embed a Lean string literal as a `JStr`. -/
def str (s : String) : JStr := s.data

/-- `s.startsWith p` on character lists. -/
def strStartsWith : JStr → JStr → Bool
  | _, [] => true
  | [], _ :: _ => false
  | c :: s, p :: ps => c == p && strStartsWith s ps

/-- `toLowerCase` on character lists (ASCII behaviour of `Char.toLower`). -/
def lowerStr (s : JStr) : JStr := s.map Char.toLower

/-- JS `Map.prototype.get` on an insertion-ordered association list. -/
def lookupKey {α : Type} : List (JStr × α) → JStr → Option α
  | [], _ => none
  | (k', v) :: rest, k => if k' = k then some v else lookupKey rest k

/-- JS `Map.prototype.set`: update in place when the key exists (keeping its
insertion position), otherwise append at the end. -/
def insertKey {α : Type} : List (JStr × α) → JStr → α → List (JStr × α)
  | [], k, v => [(k, v)]
  | (k', v') :: rest, k, v =>
      if k' = k then (k', v) :: rest else (k', v') :: insertKey rest k v

/- ===== types.ts ===== -/

def KB : Nat := 1024
def MB : Nat := 1024 * 1024

/-- Target size multiplier: aim for 70% of the limit (base64 overhead). -/
def TARGET_MULTIPLIER : ℚ := 0.7

/-- Maximum dimension for images. -/
def MAX_DIMENSION : Nat := 2048

structure CompressedImage where
  data : List Nat
  mime : JStr
deriving DecidableEq, Repr

structure CompressionAdjustment where
  quality : ℚ
  scale : ℚ
deriving DecidableEq, Repr

/- ===== providers.ts ===== -/

/-- Provider-specific image size limits (in bytes), from `providers.ts`. -/
def PROVIDER_IMAGE_LIMITS : List (JStr × Nat) :=
  [ (str "anthropic", 5 * MB)
  , (str "amazon-bedrock", 15 * MB / 4)
  , (str "openai", 20 * MB)
  , (str "azure", 20 * MB)
  , (str "google", 100 * MB)
  , (str "google-vertex", 7 * MB)
  , (str "google-vertex-anthropic", 5 * MB)
  , (str "groq", 4 * MB)
  , (str "fireworks-ai", 10 * MB)
  , (str "perplexity", 50 * MB)
  , (str "xai", 20 * MB)
  , (str "deepseek", 10 * MB)
  , (str "togetherai", 20 * MB)
  , (str "mistral", 10 * MB)
  , (str "default", 5 * MB) ]

/-- Model ID family-name to upstream provider mapping, from `providers.ts`
(`MODEL_PREFIX_TO_PROVIDER`). -/
def MODEL_TO_PROVIDER : List (JStr × JStr) :=
  [ (str "claude", str "anthropic")
  , (str "gpt", str "openai")
  , (str "o1", str "openai")
  , (str "o3", str "openai")
  , (str "o4", str "openai")
  , (str "gemini", str "google")
  , (str "grok", str "xai")
  , (str "deepseek", str "deepseek")
  , (str "llama", str "groq")
  , (str "mixtral", str "groq")
  , (str "qwen", str "fireworks-ai")
  , (str "mistral", str "mistral") ]

/-- Providers that proxy requests to upstream providers. -/
def PROXY_PROVIDERS : List JStr :=
  [str "github-copilot", str "opencode", str "github-models", str "openrouter"]

/- ===== image-processor.ts ===== -/

/-- `getProviderLimit` from `image-processor.ts`:
`PROVIDER_IMAGE_LIMITS[providerID] || PROVIDER_IMAGE_LIMITS.default`
(the JS `||` falls through on the falsy value `0`). -/
def getProviderLimit (providerID : JStr) : Nat :=
  match lookupKey PROVIDER_IMAGE_LIMITS providerID with
  | some v => if v = 0 then (lookupKey PROVIDER_IMAGE_LIMITS (str "default")).getD 0 else v
  | none => (lookupKey PROVIDER_IMAGE_LIMITS (str "default")).getD 0

/-- Modelled from the spec: `resolveProviderFromModel(modelID)` is exercised by
the repository's unit tests but its implementation is not among the source
files; spec section 4.2 describes it as the case-insensitive first match of the
model identifier against the model family-name table, by enumeration order. -/
def resolveProviderFromModel (modelID : JStr) : Option JStr :=
  go MODEL_TO_PROVIDER (lowerStr modelID)
where
  go : List (JStr × JStr) → JStr → Option JStr
    | [], _ => none
    | (p, prov) :: rest, m => if strStartsWith m p then some prov else go rest m

/-- Modelled from the spec: the two-argument `resolveLimit(destinationID,
modelID?)` is exercised by the repository's unit tests (as the two-argument
`getProviderLimit`) but its implementation is not among the source files; spec
section 4.2: when the destination is a proxy and a model identifier is given,
resolve the enforcing provider from the model identifier and return that
provider's limit; otherwise return the direct mapping with `default` fallback.
Non-proxy destinations ignore the model identifier. -/
def resolveLimit (destinationID : JStr) (modelID : Option JStr) : Nat :=
  if destinationID ∈ PROXY_PROVIDERS then
    match modelID with
    | some m =>
        match resolveProviderFromModel m with
        | some p => getProviderLimit p
        | none => getProviderLimit destinationID
    | none => getProviderLimit destinationID
  else getProviderLimit destinationID

/- ===== sharp oracle ===== -/

/-- Encoding request placed on the sharp library by `compressWithQuality` /
`aggressiveCompression`. -/
inductive EncodeSpec where
  | jpeg (quality : ℚ) (progressive : Bool)
  | png (compressionLevel : ℚ) (adaptiveFiltering : Bool)
  | webp (quality : ℚ)
  | avif (quality : ℚ)
deriving DecidableEq, Repr

/-- A sharp pipeline value: the source buffer plus an optional resize request
`(width, height, withoutEnlargement)` with fit `inside`. -/
structure SharpImage where
  source : List Nat
  resizeTo : Option (Nat × Nat × Bool)
deriving DecidableEq, Repr

/-- The sharp library as an oracle: metadata of the input buffer, and the
encoder viewed as a function from (pipeline, encode options) to the output
buffer. -/
structure SharpEnv where
  metaW : Nat
  metaH : Nat
  encode : SharpImage → EncodeSpec → List Nat

/-- JS `Math.round` on a non-negative rational. -/
def qround (q : ℚ) : Nat := (Int.floor (q + 1/2)).toNat

/- ===== compression.ts ===== -/

/-- `getInitialQuality`: 9 for PNG/GIF (PNG compression level), 90 otherwise. -/
def getInitialQuality (mime : JStr) : ℚ :=
  if mime = str "image/png" ∨ mime = str "image/gif" then 9 else 90

/-- `resizeImage`: identity pipeline when `scale >= 1`, otherwise resize to
`round(width*scale) x round(height*scale)`, fit inside, no enlargement. -/
def resizeImage (imageData : List Nat) (width height : Nat) (scale : ℚ) : SharpImage :=
  if 1 ≤ scale then ⟨imageData, none⟩
  else ⟨imageData, some (qround (width * scale), qround (height * scale), true)⟩

/-- `compressWithQuality`: format-specific encode dispatch on the mime. -/
def compressWithQuality (env : SharpEnv) (img : SharpImage) (mime : JStr) (quality : ℚ) :
    List Nat :=
  if mime = str "image/jpeg" ∨ mime = str "image/jpg" then
    env.encode img (.jpeg quality true)
  else if mime = str "image/png" then
    env.encode img (.png quality true)
  else if mime = str "image/webp" then
    env.encode img (.webp quality)
  else if mime = str "image/avif" then
    env.encode img (.avif quality)
  else if mime = str "image/gif" then
    env.encode img (.png quality false)
  else
    env.encode img (.jpeg quality true)

/-- `calculateAdjustment`: quality/scale adjustment after a failed attempt. -/
def calculateAdjustment (mime : JStr) (currentQuality currentScale : ℚ) :
    CompressionAdjustment :=
  if mime = str "image/png" ∨ mime = str "image/gif" then
    if currentQuality < 9 then
      ⟨min 9 (currentQuality + 2), currentScale⟩
    else
      ⟨9, currentScale * 0.8⟩
  else
    let newQuality := currentQuality - 15
    if 30 < newQuality then
      ⟨newQuality, currentScale⟩
    else
      ⟨85, currentScale * 0.8⟩

/-- `aggressiveCompression`: resize into 1024x1024 (enlargement allowed) and
encode at a fixed conservative setting; PNG keeps its mime, everything else
becomes JPEG. -/
def aggressiveCompression (env : SharpEnv) (imageData : List Nat) (mime : JStr) :
    CompressedImage :=
  let inst : SharpImage := ⟨imageData, some (1024, 1024, false)⟩
  let finalBuffer :=
    if mime = str "image/png" then env.encode inst (.png 9 false)
    else env.encode inst (.jpeg 70 true)
  ⟨finalBuffer, if mime = str "image/png" then str "image/png" else str "image/jpeg"⟩

/-- Initial scale of the progressive loop:
`maxDim > MAX_DIMENSION ? MAX_DIMENSION / maxDim : 1`. -/
def initialScale (width height : Nat) : ℚ :=
  let maxDim := max width height
  if MAX_DIMENSION < maxDim then (MAX_DIMENSION : ℚ) / (maxDim : ℚ) else 1

/-- The progressive attempt loop of `compressImage` (`for attempt in 0..9`),
with the remaining attempt budget as fuel and the mutable `quality`/`scale`
as parameters.  `none` means the budget was exhausted. -/
def compressLoop (env : SharpEnv) (imageData : List Nat) (mime : JStr)
    (targetSize : ℚ) (width height : Nat) :
    Nat → ℚ → ℚ → Option CompressedImage
  | 0, _, _ => none
  | fuel + 1, quality, scale =>
      let resized := resizeImage imageData width height scale
      let processed := compressWithQuality env resized mime quality
      if (processed.length : ℚ) ≤ targetSize then
        some ⟨processed, if mime = str "image/gif" then str "image/png" else mime⟩
      else
        let adjustment := calculateAdjustment mime quality scale
        compressLoop env imageData mime targetSize width height fuel
          adjustment.quality adjustment.scale

/-- `compressImage`: short-circuit under target, then up to 10 progressive
attempts, then the aggressive fallback. -/
def compressImage (env : SharpEnv) (imageData : List Nat) (mime : JStr)
    (maxSize : ℚ) : CompressedImage :=
  let targetSize := maxSize * TARGET_MULTIPLIER
  if (imageData.length : ℚ) ≤ targetSize then ⟨imageData, mime⟩
  else
    let width := env.metaW
    let height := env.metaH
    match compressLoop env imageData mime targetSize width height 10
        (getInitialQuality mime) (initialScale width height) with
    | some out => out
    | none => aggressiveCompression env imageData mime

/-- The `(quality, scale)` parameter pair of attempt `n` of the progressive
loop, assuming the first `n` attempts all failed: attempt 0 runs at the
initial parameters, and each failed attempt applies `calculateAdjustment`. -/
def stateSeq (mime : JStr) (q0 s0 : ℚ) : Nat → ℚ × ℚ
  | 0 => (q0, s0)
  | n + 1 =>
      let p := stateSeq mime q0 s0 n
      let a := calculateAdjustment mime p.1 p.2
      (a.quality, a.scale)

/- ===== base64 (Node Buffer platform capability) ===== -/

/-- Value of a base64 alphabet character. -/
def b64Val (c : Char) : Option Nat :=
  if 'A' ≤ c ∧ c ≤ 'Z' then some (c.toNat - 65)
  else if 'a' ≤ c ∧ c ≤ 'z' then some (c.toNat - 71)
  else if '0' ≤ c ∧ c ≤ '9' then some (c.toNat + 4)
  else if c = '+' then some 62
  else if c = '/' then some 63
  else none

/-- Regroup 6-bit values into bytes, four values to three bytes; a trailing
group of two or three values yields one or two bytes. -/
def b64Group : List Nat → List Nat
  | a :: b :: c :: d :: rest =>
      (a * 4 + b / 16) :: ((b % 16) * 16 + c / 4) :: ((c % 4) * 64 + d) :: b64Group rest
  | [a, b] => [a * 4 + b / 16]
  | [a, b, c] => [a * 4 + b / 16, (b % 16) * 16 + c / 4]
  | _ => []

/-- `Buffer.from(s, 'base64')`: non-alphabet characters (padding included)
are ignored, the 6-bit values are regrouped into bytes. -/
def base64Decode (s : JStr) : List Nat := b64Group (s.filterMap b64Val)

/-- Character of a 6-bit value in the base64 alphabet. -/
def b64Char (n : Nat) : Char :=
  (str "ABCDEFGHIJKLMNOPQRSTUVWXYZabcdefghijklmnopqrstuvwxyz0123456789+/").getD n 'A'

/-- Split bytes into 6-bit values with `=` padding, three bytes to four
characters. -/
def b64EncGroup : List Nat → List Char
  | x :: y :: z :: rest =>
      b64Char (x / 4) :: b64Char ((x % 4) * 16 + y / 16) ::
        b64Char ((y % 16) * 4 + z / 64) :: b64Char (z % 64) :: b64EncGroup rest
  | [x, y] => [b64Char (x / 4), b64Char ((x % 4) * 16 + y / 16), b64Char ((y % 16) * 4), '=']
  | [x] => [b64Char (x / 4), b64Char ((x % 4) * 16), '=', '=']
  | [] => []

/-- `buffer.toString('base64')`. -/
def base64Encode (b : List Nat) : JStr := b64EncGroup b

/- ===== logger.ts cache and utils ===== -/

/-- Maximum cache entries before eviction. -/
def MAX_CACHE_SIZE : Nat := 100

/-- The in-memory image cache, keyed by `providerID:hash`. -/
abbrev ImageCache := List (JStr × JStr)

/-- `getCachedImage`. -/
def getCachedImage (cache : ImageCache) (cacheKey : JStr) : Option JStr :=
  lookupKey cache cacheKey

/-- `setCachedImage`: insert, then evict the oldest entry when the size
exceeds `MAX_CACHE_SIZE`. -/
def setCachedImage (cache : ImageCache) (cacheKey dataUri : JStr) : ImageCache :=
  let cache' := insertKey cache cacheKey dataUri
  if MAX_CACHE_SIZE < cache'.length then
    match cache' with
    | [] => []
    | _ :: rest => rest
  else cache'

/-- Wrap an integer to signed 32 bits (JS `| 0`). -/
def wrap32 (x : Int) : Int := (x + 2 ^ 31) % 2 ^ 32 - 2 ^ 31

/-- Digit character for base 36 (`0-9a-z`). -/
def base36Digit (d : Nat) : Char :=
  if d < 10 then Char.ofNat (48 + d) else Char.ofNat (87 + d)

/-- Digits of `n` in base 36, most significant first; `fuel` bounds the
recursion depth (any `fuel ≥ n` is enough). -/
def toBase36Aux : Nat → Nat → List Char
  | 0, _ => []
  | _, 0 => []
  | fuel + 1, n => toBase36Aux fuel (n / 36) ++ [base36Digit (n % 36)]

/-- `Number.prototype.toString(36)` of a signed integer. -/
def toBase36 (x : Int) : JStr :=
  if x = 0 then str "0"
  else if x < 0 then '-' :: toBase36Aux x.natAbs x.natAbs
  else toBase36Aux x.natAbs x.natAbs

/-- `hashBase64`: the 32-bit rolling hash `hash * 31 + charCode`, rendered in
base 36. -/
def hashBase64 (data : JStr) : JStr :=
  toBase36 (data.foldl (fun hash c => wrap32 (hash * 31 + c.toNat)) 0)

/-- `getCacheKey(providerID, imageUrl)`. -/
def getCacheKey (providerID imageUrl : JStr) : JStr :=
  providerID ++ ':' :: hashBase64 imageUrl

/-- A line terminator for the JS regexp `.` (which never matches one). -/
def isLineTerm (c : Char) : Bool :=
  c = '\n' ∨ c = '\r' ∨ c.toNat = 0x2028 ∨ c.toNat = 0x2029

structure ParsedDataUri where
  mime : JStr
  data : List Nat
deriving DecidableEq, Repr

/-- `parseDataUri`: the match against `/^data:([^;]+);base64,(.+)$/` followed
by a base64 decode of the payload group.  Total: it never throws. -/
def parseDataUri (dataUri : JStr) : Option ParsedDataUri :=
  if strStartsWith dataUri (str "data:") then
    let rest := dataUri.drop 5
    let mimeChars := rest.takeWhile (fun c => c != ';')
    let after := rest.dropWhile (fun c => c != ';')
    if mimeChars ≠ [] ∧ strStartsWith after (str ";base64,") = true then
      let payload := after.drop 8
      if payload ≠ [] ∧ payload.all (fun c => !isLineTerm c) = true then
        some ⟨mimeChars, base64Decode payload⟩
      else none
    else none
  else none

/-- `getSizeFromDataUri`: `ceil(length-of-segment-after-first-comma * 0.75)`
(`split(',')[1]` is the segment between the first and second comma). -/
def getSizeFromDataUri (dataUri : JStr) : Nat :=
  let base64Data := ((dataUri.dropWhile (fun c => c != ',')).drop 1).takeWhile
    (fun c => c != ',')
  (3 * base64Data.length + 3) / 4

/- ===== image-processor.ts: processImagePart ===== -/

/-- A message part, restricted to the three fields the plugin inspects. -/
structure MsgPart where
  type : JStr
  mime : Option JStr
  url : Option JStr
deriving DecidableEq, Repr

structure CompressionResult where
  part : MsgPart
  originalSize : Nat
  compressedSize : Nat
  wasCompressed : Bool
  failed : Bool
deriving DecidableEq, Repr

/-- `isImageFilePart`: a file part carrying an `image/*` mime and a `data:`
URL. -/
def isImageFilePart (part : MsgPart) : Bool :=
  part.type == str "file" &&
  (match part.mime with
   | some m => strStartsWith m (str "image/")
   | none => false) &&
  (match part.url with
   | some u => strStartsWith u (str "data:")
   | none => false)

/-- `processImagePart`, with the compression engine passed as an explicit
fallible function (`compressImage` may throw inside its fallback encode) and
the module-level cache passed as explicit state. -/
def processImagePart (compress : List Nat → JStr → ℚ → Except Unit CompressedImage)
    (cache : ImageCache) (part : MsgPart) (providerID : JStr) :
    CompressionResult × ImageCache :=
  if !isImageFilePart part then
    (⟨part, 0, 0, false, false⟩, cache)
  else
    let url := part.url.getD []
    let maxSize := getProviderLimit providerID
    let targetSize : ℚ := (maxSize : ℚ) * TARGET_MULTIPLIER
    match parseDataUri url with
    | none => (⟨part, 0, 0, false, true⟩, cache)
    | some parsed =>
        let originalSize := parsed.data.length
        let cacheKey := getCacheKey providerID url
        match getCachedImage cache cacheKey with
        | some cached =>
            (⟨{ part with url := some cached }, originalSize,
              getSizeFromDataUri cached, true, false⟩, cache)
        | none =>
            if (originalSize : ℚ) ≤ targetSize then
              (⟨part, originalSize, originalSize, false, false⟩, cache)
            else
              match compress parsed.data parsed.mime (maxSize : ℚ) with
              | .error _ => (⟨part, originalSize, originalSize, false, true⟩, cache)
              | .ok compressed =>
                  let newDataUri := str "data:" ++ compressed.mime ++ str ";base64," ++
                    base64Encode compressed.data
                  (⟨{ part with url := some newDataUri, mime := some compressed.mime },
                    originalSize, compressed.data.length, true, false⟩,
                   setCachedImage cache cacheKey newDataUri)

/- ===== helper lemmas ===== -/

/-- A dummy codec oracle for concrete instantiations. -/
def dummyEnv : SharpEnv := ⟨0, 0, fun _ _ => []⟩

lemma compressImage_skip (env : SharpEnv) (imageData : List Nat) (mime : JStr)
    (maxSize : ℚ) (h : (imageData.length : ℚ) ≤ maxSize * TARGET_MULTIPLIER) :
    compressImage env imageData mime maxSize = ⟨imageData, mime⟩ := by
  simp [compressImage, h]

/- ===== C1 ===== -/

/-- C1: resolving the limit for the destination `anthropic` returns 5,242,880
bytes regardless of the model identifier; for the proxy destination
`github-copilot`, the model `claude-sonnet-4-5` resolves through the model
family table to the anthropic limit, while `unknown-model-xyz` matches no
family and falls back to the `default` limit (`github-copilot` has no direct
entry in the limits table). -/
theorem getProviderLimit_resolution :
    (∀ m : Option JStr, resolveLimit (str "anthropic") m = 5242880)
    ∧ resolveProviderFromModel (str "claude-sonnet-4-5") = some (str "anthropic")
    ∧ resolveLimit (str "github-copilot") (some (str "claude-sonnet-4-5"))
        = getProviderLimit (str "anthropic")
    ∧ resolveLimit (str "github-copilot") (some (str "claude-sonnet-4-5")) = 5242880
    ∧ resolveProviderFromModel (str "unknown-model-xyz") = none
    ∧ lookupKey PROVIDER_IMAGE_LIMITS (str "github-copilot") = none
    ∧ resolveLimit (str "github-copilot") (some (str "unknown-model-xyz"))
        = getProviderLimit (str "default")
    ∧ getProviderLimit (str "default") = 5242880 := by
  refine ⟨fun m => ?_, by decide, by decide, by decide, by decide, by decide,
    by decide, by decide⟩
  cases m <;> rfl

/- ===== C3 ===== -/

/-- C3: whenever the input buffer is already at most `maxSize * 0.7` bytes,
`compressImage` returns the input bytes unchanged byte-for-byte and the input
mime unchanged. -/
theorem compress_skip_under_target (env : SharpEnv) (imageData : List Nat)
    (mime : JStr) (maxSize : ℚ)
    (h : (imageData.length : ℚ) ≤ maxSize * TARGET_MULTIPLIER) :
    compressImage env imageData mime maxSize = ⟨imageData, mime⟩ :=
  compressImage_skip env imageData mime maxSize h

theorem compress_skip_under_target_witness :
    compressImage dummyEnv [1, 2, 3] (str "image/jpeg") 100
      = ⟨[1, 2, 3], str "image/jpeg"⟩ :=
  compress_skip_under_target dummyEnv [1, 2, 3] (str "image/jpeg") 100
    (by norm_num [TARGET_MULTIPLIER])

/- ===== C7 ===== -/

/-- C7: if a first call to `compressImage` yields an output whose byte length
is at most `maxSize * 0.7`, then a second call on that output (same `maxSize`,
output mime, any codec state) returns it unchanged. -/
theorem compress_idempotent (env env2 : SharpEnv) (imageData : List Nat)
    (mime : JStr) (maxSize : ℚ)
    (h : (((compressImage env imageData mime maxSize).data.length : ℚ))
      ≤ maxSize * TARGET_MULTIPLIER) :
    compressImage env2 (compressImage env imageData mime maxSize).data
        (compressImage env imageData mime maxSize).mime maxSize
      = ⟨(compressImage env imageData mime maxSize).data,
         (compressImage env imageData mime maxSize).mime⟩ :=
  compressImage_skip env2 _ _ maxSize h

theorem compress_idempotent_witness :
    compressImage dummyEnv (compressImage dummyEnv [1, 2, 3] (str "image/png") 100).data
        (compressImage dummyEnv [1, 2, 3] (str "image/png") 100).mime 100
      = ⟨(compressImage dummyEnv [1, 2, 3] (str "image/png") 100).data,
         (compressImage dummyEnv [1, 2, 3] (str "image/png") 100).mime⟩ :=
  compress_idempotent dummyEnv dummyEnv [1, 2, 3] (str "image/png") 100 (by
    rw [compressImage_skip dummyEnv [1, 2, 3] (str "image/png") 100
      (by norm_num [TARGET_MULTIPLIER])]
    norm_num [TARGET_MULTIPLIER])

/- ===== C4 ===== -/

/-- C4: after a failed attempt, for PNG/GIF a quality below 9 is increased by
2 (capped at 9) with the scale unchanged, otherwise the quality stays 9 and
the scale is multiplied by 0.8 (compounding from the current scale); for every
other mime the quality drops by 15 with the scale unchanged when the reduced
value exceeds 30, otherwise the quality resets to 85 and the scale is
multiplied by 0.8. -/
theorem calculateAdjustment_spec (mime : JStr) (q s : ℚ) :
    ((mime = str "image/png" ∨ mime = str "image/gif") →
      (q < 9 → calculateAdjustment mime q s = ⟨min 9 (q + 2), s⟩)
      ∧ (9 ≤ q → calculateAdjustment mime q s = ⟨9, s * 0.8⟩))
    ∧ (¬(mime = str "image/png" ∨ mime = str "image/gif") →
      (30 < q - 15 → calculateAdjustment mime q s = ⟨q - 15, s⟩)
      ∧ (q - 15 ≤ 30 → calculateAdjustment mime q s = ⟨85, s * 0.8⟩)) := by
  unfold calculateAdjustment
  constructor
  · intro hm
    refine ⟨fun hq => ?_, fun hq => ?_⟩
    · rw [if_pos hm, if_pos hq]
    · rw [if_pos hm, if_neg (not_lt.mpr hq)]
  · intro hm
    refine ⟨fun hq => ?_, fun hq => ?_⟩
    · rw [if_neg hm]
      simp only []
      rw [if_pos hq]
    · rw [if_neg hm]
      simp only []
      rw [if_neg (not_lt.mpr hq)]

theorem calculateAdjustment_spec_witness :
    calculateAdjustment (str "image/jpeg") 90 1 = ⟨(90 : ℚ) - 15, 1⟩
    ∧ calculateAdjustment (str "image/png") 9 1 = ⟨9, 1 * 0.8⟩ :=
  ⟨by
    have h := (calculateAdjustment_spec (str "image/jpeg") 90 1).2 (by decide)
    exact h.1 (by norm_num),
   by
    have h := (calculateAdjustment_spec (str "image/png") 9 1).1 (Or.inl rfl)
    exact h.2 (by norm_num)⟩

/- ===== C2 ===== -/

lemma compressLoop_mime (env : SharpEnv) (imageData : List Nat) (mime : JStr)
    (t : ℚ) (w h : Nat) :
    ∀ fuel q s out, compressLoop env imageData mime t w h fuel q s = some out →
      out.mime = if mime = str "image/gif" then str "image/png" else mime := by
  intro fuel
  induction fuel with
  | zero => intro q s out hout; simp [compressLoop] at hout
  | succ n ih =>
    intro q s out hout
    simp only [compressLoop] at hout
    split at hout
    · obtain rfl := Option.some.inj hout
      rfl
    · exact ih _ _ _ hout

/-- An oracle whose encoder always produces a 100-byte buffer: every
progressive attempt stays over a target below 100 bytes. -/
def cexEnv : SharpEnv := ⟨100, 50, fun _ _ => List.replicate 100 0⟩

lemma compressWithQuality_cexEnv (img : SharpImage) (mime : JStr) (q : ℚ) :
    compressWithQuality cexEnv img mime q = List.replicate 100 0 := by
  unfold compressWithQuality
  split_ifs <;> rfl

lemma cex_loop_none (mime : JStr) (t : ℚ) (ht : ¬ ((100 : ℚ) ≤ t)) :
    ∀ fuel q s,
      compressLoop cexEnv (List.replicate 100 0) mime t 100 50 fuel q s = none := by
  intro fuel
  induction fuel with
  | zero => intro q s; rfl
  | succ n ih =>
    intro q s
    simp only [compressLoop, compressWithQuality_cexEnv]
    rw [if_neg (by simpa using ht)]
    exact ih _ _

/-- C2 counterexample: with a codec for which every progressive attempt stays
over target, a GIF input reaches the fallback and comes back as `image/jpeg`,
not `image/png`; likewise a WebP input comes back as `image/jpeg`, so its mime
is not preserved. -/
theorem compress_mime_preservation_cex :
    (compressImage cexEnv (List.replicate 100 0) (str "image/gif") 10).mime
        = str "image/jpeg"
    ∧ (compressImage cexEnv (List.replicate 100 0) (str "image/webp") 10).mime
        = str "image/jpeg"
    ∧ str "image/jpeg" ≠ str "image/png"
    ∧ str "image/jpeg" ≠ str "image/webp" := by
  refine ⟨?_, ?_, by decide, by decide⟩ <;>
  · simp only [compressImage]
    rw [if_neg (by norm_num [TARGET_MULTIPLIER])]
    rw [show cexEnv.metaW = 100 from rfl, show cexEnv.metaH = 50 from rfl]
    rw [cex_loop_none _ _ (by norm_num [TARGET_MULTIPLIER]) 10 _ _]
    simp [aggressiveCompression]
    decide

/-- An oracle whose encoder always produces an empty buffer: the first
progressive attempt always meets the target. -/
def okEnv : SharpEnv := ⟨100, 50, fun _ _ => []⟩

/-- C2 (amended): a progressive pass that produces output preserves the input
mime except for GIF, which is reported as `image/png`; the fallback pass
preserves the mime only for PNG and returns `image/jpeg` for every other
input mime (so WebP/AVIF/GIF/`image/jpg` inputs that fall through all ten
attempts come back as `image/jpeg`). -/
theorem compress_mime_paths (env : SharpEnv) (imageData : List Nat) (mime : JStr)
    (targetSize maxSize : ℚ) (w h fuel : Nat) (q s : ℚ) :
    (∀ out, compressLoop env imageData mime targetSize w h fuel q s = some out →
        out.mime = if mime = str "image/gif" then str "image/png" else mime)
    ∧ (aggressiveCompression env imageData mime).mime
        = (if mime = str "image/png" then str "image/png" else str "image/jpeg")
    ∧ (¬ ((imageData.length : ℚ) ≤ maxSize * TARGET_MULTIPLIER) →
        (compressImage env imageData mime maxSize).mime
            = (if mime = str "image/gif" then str "image/png" else mime)
        ∨ (compressImage env imageData mime maxSize).mime
            = (if mime = str "image/png" then str "image/png" else str "image/jpeg")) := by
  refine ⟨fun out => compressLoop_mime env imageData mime targetSize w h fuel q s out,
    by simp [aggressiveCompression], ?_⟩
  intro hgt
  simp only [compressImage]
  rw [if_neg hgt]
  cases heq : compressLoop env imageData mime (maxSize * TARGET_MULTIPLIER)
      env.metaW env.metaH 10 (getInitialQuality mime)
      (initialScale env.metaW env.metaH) with
  | some out =>
    left
    simpa using compressLoop_mime env imageData mime (maxSize * TARGET_MULTIPLIER)
      env.metaW env.metaH 10 (getInitialQuality mime)
      (initialScale env.metaW env.metaH) out heq
  | none =>
    right
    simp [aggressiveCompression]

theorem compress_mime_paths_witness :
    (compressImage okEnv (List.replicate 100 0) (str "image/gif") 10).mime
        = (if str "image/gif" = str "image/gif" then str "image/png"
           else str "image/gif")
    ∨ (compressImage okEnv (List.replicate 100 0) (str "image/gif") 10).mime
        = (if str "image/gif" = str "image/png" then str "image/png"
           else str "image/jpeg") :=
  (compress_mime_paths okEnv (List.replicate 100 0) (str "image/gif") 7 10
    100 50 10 9 1).2.2 (by norm_num [TARGET_MULTIPLIER])

/- ===== C9 ===== -/

lemma adj_scale_cases (mime : JStr) (q s : ℚ) :
    (calculateAdjustment mime q s).scale = s
    ∨ (calculateAdjustment mime q s).scale = s * 0.8 := by
  simp only [calculateAdjustment]
  split_ifs <;> simp

lemma adj_scale_pos (mime : JStr) (q s : ℚ) (hs : 0 < s) :
    0 < (calculateAdjustment mime q s).scale := by
  rcases adj_scale_cases mime q s with h | h <;> rw [h]
  · exact hs
  · exact mul_pos hs (by norm_num)

lemma adj_scale_le (mime : JStr) (q s : ℚ) (hs : 0 < s) :
    (calculateAdjustment mime q s).scale ≤ s := by
  rcases adj_scale_cases mime q s with h | h <;> rw [h]
  exact mul_le_of_le_one_right (le_of_lt hs) (by norm_num)

lemma initialScale_pos (w h : Nat) : 0 < initialScale w h := by
  simp only [initialScale]
  split_ifs with hlt
  · apply div_pos
    · norm_num [MAX_DIMENSION]
    · exact_mod_cast Nat.lt_of_le_of_lt (Nat.zero_le _) hlt
  · norm_num

lemma initialScale_le_one (w h : Nat) : initialScale w h ≤ 1 := by
  simp only [initialScale]
  split_ifs with hlt
  · rw [div_le_one (by exact_mod_cast Nat.lt_of_le_of_lt (Nat.zero_le _) hlt)]
    exact_mod_cast le_of_lt hlt
  · exact le_refl 1

lemma stateSeq_scale_pos (mime : JStr) (q0 s0 : ℚ) (h0 : 0 < s0) :
    ∀ n, 0 < (stateSeq mime q0 s0 n).2 := by
  intro n
  induction n with
  | zero => exact h0
  | succ n ih =>
    simp only [stateSeq]
    exact adj_scale_pos mime _ _ ih

lemma stateSeq_scale_mono (mime : JStr) (q0 s0 : ℚ) (h0 : 0 < s0) (n : Nat) :
    (stateSeq mime q0 s0 (n + 1)).2 ≤ (stateSeq mime q0 s0 n).2 := by
  simp only [stateSeq]
  exact adj_scale_le mime _ _ (stateSeq_scale_pos mime q0 s0 h0 n)

lemma stateSeq_scale_le_one (mime : JStr) (q0 s0 : ℚ) (h0 : 0 < s0) (h1 : s0 ≤ 1) :
    ∀ n, (stateSeq mime q0 s0 n).2 ≤ 1 := by
  intro n
  induction n with
  | zero => exact h1
  | succ n ih => exact le_trans (stateSeq_scale_mono mime q0 s0 h0 n) ih

/-- C9: the scale of the progressive loop starts at
`min(1, MAX_DIMENSION / max(width, height))`, always lies in `(0, 1]`, and is
monotonically non-increasing: each adjustment leaves it unchanged or multiplies
it by 0.8; a failed attempt at the state of attempt `n` continues the loop at
the state of attempt `n + 1`. -/
theorem compress_scale_invariant (env : SharpEnv) (imageData : List Nat)
    (mime : JStr) (targetSize : ℚ) (n fuel : Nat) :
    (0 < max env.metaW env.metaH →
      initialScale env.metaW env.metaH
        = min 1 ((MAX_DIMENSION : ℚ) / ((max env.metaW env.metaH : Nat) : ℚ)))
    ∧ 0 < (stateSeq mime (getInitialQuality mime)
        (initialScale env.metaW env.metaH) n).2
    ∧ (stateSeq mime (getInitialQuality mime)
        (initialScale env.metaW env.metaH) n).2 ≤ 1
    ∧ ((stateSeq mime (getInitialQuality mime)
          (initialScale env.metaW env.metaH) (n + 1)).2
        = (stateSeq mime (getInitialQuality mime)
            (initialScale env.metaW env.metaH) n).2
      ∨ (stateSeq mime (getInitialQuality mime)
          (initialScale env.metaW env.metaH) (n + 1)).2
        = (stateSeq mime (getInitialQuality mime)
            (initialScale env.metaW env.metaH) n).2 * 0.8)
    ∧ (stateSeq mime (getInitialQuality mime)
        (initialScale env.metaW env.metaH) (n + 1)).2
      ≤ (stateSeq mime (getInitialQuality mime)
          (initialScale env.metaW env.metaH) n).2
    ∧ (¬ ((compressWithQuality env
            (resizeImage imageData env.metaW env.metaH
              (stateSeq mime (getInitialQuality mime)
                (initialScale env.metaW env.metaH) n).2)
            mime
            (stateSeq mime (getInitialQuality mime)
              (initialScale env.metaW env.metaH) n).1).length : ℚ) ≤ targetSize →
        compressLoop env imageData mime targetSize env.metaW env.metaH (fuel + 1)
            (stateSeq mime (getInitialQuality mime)
              (initialScale env.metaW env.metaH) n).1
            (stateSeq mime (getInitialQuality mime)
              (initialScale env.metaW env.metaH) n).2
          = compressLoop env imageData mime targetSize env.metaW env.metaH fuel
              (stateSeq mime (getInitialQuality mime)
                (initialScale env.metaW env.metaH) (n + 1)).1
              (stateSeq mime (getInitialQuality mime)
                (initialScale env.metaW env.metaH) (n + 1)).2) := by
  refine ⟨?_, stateSeq_scale_pos mime _ _ (initialScale_pos _ _) n,
    stateSeq_scale_le_one mime _ _ (initialScale_pos _ _) (initialScale_le_one _ _) n,
    ?_, stateSeq_scale_mono mime _ _ (initialScale_pos _ _) n, ?_⟩
  · intro h0
    simp only [initialScale]
    split_ifs with hlt
    · refine (min_eq_right ?_).symm
      rw [div_le_one (by exact_mod_cast Nat.lt_of_le_of_lt (Nat.zero_le _) hlt)]
      exact_mod_cast le_of_lt hlt
    · refine (min_eq_left ?_).symm
      rw [le_div_iff₀ (by exact_mod_cast h0)]
      have hc : ((max env.metaW env.metaH : Nat) : ℚ) ≤ (MAX_DIMENSION : ℚ) :=
        Nat.cast_le.mpr (not_lt.mp hlt)
      linarith
  · simp only [stateSeq]
    exact adj_scale_cases mime _ _
  · intro hf
    simp only [compressLoop]
    rw [if_neg hf]
    simp only [stateSeq]

theorem compress_scale_invariant_witness :
    initialScale cexEnv.metaW cexEnv.metaH
      = min 1 ((MAX_DIMENSION : ℚ) / ((max cexEnv.metaW cexEnv.metaH : Nat) : ℚ)) :=
  (compress_scale_invariant cexEnv [] (str "image/jpeg") 7 0 0).1 (by decide)

/- ===== C10 ===== -/

lemma adj_png_gif (mime : JStr) (s : ℚ)
    (hm : mime = str "image/png" ∨ mime = str "image/gif") :
    calculateAdjustment mime 9 s = ⟨9, s * 0.8⟩ := by
  unfold calculateAdjustment
  rw [if_pos hm, if_neg (by norm_num)]

lemma stateSeq_quality_png (mime : JStr) (s0 : ℚ)
    (hm : mime = str "image/png" ∨ mime = str "image/gif") :
    ∀ n, (stateSeq mime 9 s0 n).1 = 9 := by
  intro n
  induction n with
  | zero => rfl
  | succ n ih =>
    simp only [stateSeq]
    rw [ih, adj_png_gif mime _ hm]

/-- C10: PNG and GIF inputs start at quality 9, so the quality stays exactly 9
at every attempt, the quality-below-9 branch of `calculateAdjustment` is never
taken (every adjustment for these formats is the reset branch), and every
failed attempt multiplies the scale by 0.8. -/
theorem png_quality_constant (mime : JStr) (w h n : Nat)
    (hm : mime = str "image/png" ∨ mime = str "image/gif") :
    getInitialQuality mime = 9
    ∧ (stateSeq mime (getInitialQuality mime) (initialScale w h) n).1 = 9
    ∧ (stateSeq mime (getInitialQuality mime) (initialScale w h) (n + 1)).2
        = (stateSeq mime (getInitialQuality mime) (initialScale w h) n).2 * 0.8
    ∧ calculateAdjustment mime
        (stateSeq mime (getInitialQuality mime) (initialScale w h) n).1
        (stateSeq mime (getInitialQuality mime) (initialScale w h) n).2
      = ⟨9, (stateSeq mime (getInitialQuality mime) (initialScale w h) n).2 * 0.8⟩ := by
  have hq : getInitialQuality mime = 9 := by
    unfold getInitialQuality
    rw [if_pos hm]
  have hqn : ∀ k, (stateSeq mime (getInitialQuality mime) (initialScale w h) k).1 = 9 := by
    intro k
    rw [hq]
    exact stateSeq_quality_png mime _ hm k
  refine ⟨hq, hqn n, ?_, ?_⟩
  · simp only [stateSeq]
    rw [hqn n, adj_png_gif mime _ hm]
  · rw [hqn n, adj_png_gif mime _ hm]

theorem png_quality_constant_witness :
    getInitialQuality (str "image/png") = 9
    ∧ (stateSeq (str "image/png") (getInitialQuality (str "image/png"))
        (initialScale 100 50) 2).1 = 9 :=
  ⟨(png_quality_constant (str "image/png") 100 50 2 (Or.inl rfl)).1,
   (png_quality_constant (str "image/png") 100 50 2 (Or.inl rfl)).2.1⟩

/- ===== C6 ===== -/

/-- Run a sequence of cache inserts (the argument order of `setCachedImage`). -/
def insertAll (cache : ImageCache) (l : List (JStr × JStr)) : ImageCache :=
  l.foldl (fun m kv => setCachedImage m kv.1 kv.2) cache

lemma lookupKey_eq_none {α : Type} (l : List (JStr × α)) (k : JStr)
    (h : k ∉ l.map Prod.fst) : lookupKey l k = none := by
  induction l with
  | nil => rfl
  | cons x t ih =>
    simp only [List.map_cons, List.mem_cons, not_or] at h
    simp only [lookupKey]
    rw [if_neg (fun he => h.1 he.symm), ih h.2]

lemma insertKey_of_not_mem {α : Type} (l : List (JStr × α)) (k : JStr) (v : α)
    (h : k ∉ l.map Prod.fst) : insertKey l k v = l ++ [(k, v)] := by
  induction l with
  | nil => rfl
  | cons x t ih =>
    simp only [List.map_cons, List.mem_cons, not_or] at h
    simp only [insertKey]
    rw [if_neg (fun he => h.1 he.symm), ih h.2]
    rfl

lemma insertKey_length_le {α : Type} (l : List (JStr × α)) (k : JStr) (v : α) :
    (insertKey l k v).length ≤ l.length + 1 := by
  induction l with
  | nil => simp [insertKey]
  | cons x t ih =>
    simp only [insertKey]
    split_ifs
    · simp
    · simpa using Nat.succ_le_succ ih

lemma setCachedImage_eq (m : ImageCache) (k v : JStr) :
    setCachedImage m k v
      = if MAX_CACHE_SIZE < (insertKey m k v).length
        then (insertKey m k v).tail else insertKey m k v := by
  simp only [setCachedImage]
  cases insertKey m k v <;> rfl

lemma setCachedImage_length (m : ImageCache) (k v : JStr)
    (h : m.length ≤ MAX_CACHE_SIZE) :
    (setCachedImage m k v).length ≤ MAX_CACHE_SIZE := by
  rw [setCachedImage_eq]
  have hlen := insertKey_length_le m k v
  split_ifs with hgt
  · cases hins : insertKey m k v with
    | nil => simp
    | cons a t =>
      rw [hins] at hlen
      simp only [List.length_cons] at hlen
      simpa using by omega
  · omega

lemma insertAll_length (l : List (JStr × JStr)) :
    ∀ m : ImageCache, m.length ≤ MAX_CACHE_SIZE →
      (insertAll m l).length ≤ MAX_CACHE_SIZE := by
  induction l with
  | nil => intro m hm; exact hm
  | cons kv t ih =>
    intro m hm
    exact ih _ (setCachedImage_length m kv.1 kv.2 hm)

lemma lookupKey_get {α : Type} (l : List (JStr × α)) (hnd : (l.map Prod.fst).Nodup) :
    ∀ i (h : i < l.length), lookupKey l (l.get ⟨i, h⟩).1 = some (l.get ⟨i, h⟩).2 := by
  induction l with
  | nil => intro i h; exact absurd h (Nat.not_lt_zero i)
  | cons x t ih =>
    intro i h
    simp only [List.map_cons, List.nodup_cons] at hnd
    cases i with
    | zero => simp [lookupKey]
    | succ i =>
      have hit : i < t.length := Nat.lt_of_succ_lt_succ h
      have hmem : ((x :: t).get ⟨i + 1, h⟩).1 ∈ t.map Prod.fst := by
        simp only [List.get_cons_succ]
        exact List.mem_map_of_mem Prod.fst (t.get_mem i hit)
      simp only [lookupKey, List.get_cons_succ]
      have hne : ¬(x.1 = (t.get ⟨i, hit⟩).1) := by
        intro he
        rw [List.get_cons_succ] at hmem
        exact hnd.1 (he ▸ hmem)
      rw [if_neg hne]
      exact ih hnd.2 i hit

lemma insertAll_eq_drop (l : List (JStr × JStr)) :
    ∀ m : ImageCache, m.length ≤ MAX_CACHE_SIZE →
      ((m ++ l).map Prod.fst).Nodup →
      insertAll m l
        = (m ++ l).drop
            (m.length + l.length - min (m.length + l.length) MAX_CACHE_SIZE) := by
  induction l with
  | nil =>
    intro m hm _
    simp only [insertAll, List.foldl_nil, List.append_nil, List.length_nil,
      Nat.add_zero]
    have h0 : m.length - min m.length MAX_CACHE_SIZE = 0 := by omega
    rw [h0, List.drop_zero]
  | cons kv t ih =>
    intro m hm hnd
    obtain ⟨k, v⟩ := kv
    have hkm : k ∉ m.map Prod.fst := by
      intro hk
      have hd := List.disjoint_of_nodup_append (by simpa using hnd)
      exact hd hk (by simp)
    have hins : insertKey m k v = m ++ [(k, v)] := insertKey_of_not_mem m k v hkm
    have step : insertAll m ((k, v) :: t) = insertAll (setCachedImage m k v) t := rfl
    by_cases hM : MAX_CACHE_SIZE < m.length + 1
    · -- the cache is full: the head entry is evicted
      have hmne : m ≠ [] := by
        intro hnil
        rw [hnil] at hM
        simp [MAX_CACHE_SIZE] at hM
      have hset : setCachedImage m k v = m.tail ++ [(k, v)] := by
        rw [setCachedImage_eq, hins, if_pos (by simpa using hM)]
        cases m with
        | nil => exact absurd rfl hmne
        | cons a t' => rfl
      have hjoin : (m.tail ++ [(k, v)]) ++ t = (m ++ (k, v) :: t).drop 1 := by
        rw [List.drop_append_of_le_length (by
          cases m with
          | nil => exact absurd rfl hmne
          | cons a t' => simp)]
        simp [List.append_assoc, List.drop_one]
      have hlen' : (m.tail ++ [(k, v)]).length = m.length := by
        cases m with
        | nil => exact absurd rfl hmne
        | cons a t' => simp
      have hnd' : (((m.tail ++ [(k, v)]) ++ t).map Prod.fst).Nodup := by
        rw [hjoin, List.map_drop]
        exact hnd.sublist ((List.map Prod.fst (m ++ (k, v) :: t)).drop_sublist 1)
      have hIH := ih (m.tail ++ [(k, v)]) (by omega) hnd'
      rw [step, hset, hIH, hjoin, List.drop_drop]
      congr 1
      simp only [hlen', List.length_append, List.length_cons, MAX_CACHE_SIZE] at *
      omega
    · -- room left: plain append
      have hset : setCachedImage m k v = m ++ [(k, v)] := by
        rw [setCachedImage_eq, hins, if_neg (by simpa using hM)]
      have hjoin : (m ++ [(k, v)]) ++ t = m ++ (k, v) :: t := by simp
      have hnd' : (((m ++ [(k, v)]) ++ t).map Prod.fst).Nodup := by rw [hjoin]; exact hnd
      have hIH := ih (m ++ [(k, v)]) (by simp; omega) hnd'
      rw [step, hset, hIH, hjoin]
      congr 1
      simp only [List.length_append, List.length_cons, List.length_nil] at *
      omega

/-- C6: starting from an empty cache, inserting 110 entries with pairwise
distinct keys leaves exactly the last 100 entries (the 10 oldest-inserted
are evicted), every key from the 101st to the 110th insert (indices 100-109,
indeed every index from 10 on) is still retrievable with its value, the first
10 keys are gone, and after each insert of the sequence the cache size is at
most `MAX_CACHE_SIZE`. -/
theorem cache_eviction_spec (l : List (JStr × JStr))
    (hlen : l.length = 110) (hnd : (l.map Prod.fst).Nodup) :
    insertAll [] l = l.drop 10
    ∧ (∀ n, (insertAll [] (l.take n)).length ≤ MAX_CACHE_SIZE)
    ∧ (∀ i (h : i < l.length), 10 ≤ i →
        getCachedImage (insertAll [] l) (l.get ⟨i, h⟩).1 = some (l.get ⟨i, h⟩).2)
    ∧ (∀ i (h : i < l.length), i < 10 →
        getCachedImage (insertAll [] l) (l.get ⟨i, h⟩).1 = none) := by
  have hdrop : insertAll [] l = l.drop 10 := by
    have h := insertAll_eq_drop l [] (by simp) (by simpa using hnd)
    simpa [hlen, MAX_CACHE_SIZE] using h
  have hnd10 : ((l.drop 10).map Prod.fst).Nodup := by
    rw [List.map_drop]
    exact hnd.sublist ((l.map Prod.fst).drop_sublist 10)
  refine ⟨hdrop, fun n => insertAll_length (l.take n) [] (by simp), ?_, ?_⟩
  · intro i h h10
    rw [hdrop]
    have hi' : i - 10 < (l.drop 10).length := by
      rw [List.length_drop]
      omega
    have hget : (l.drop 10).get ⟨i - 10, hi'⟩ = l.get ⟨i, h⟩ := by
      simp only [List.get_eq_getElem, List.getElem_drop]
      congr 1
      omega
    have := lookupKey_get (l.drop 10) hnd10 (i - 10) hi'
    rw [hget] at this
    exact this
  · intro i h hi10
    rw [hdrop]
    apply lookupKey_eq_none
    intro hmem
    have htake : (l.get ⟨i, h⟩).1 ∈ (l.take 10).map Prod.fst := by
      apply List.mem_map_of_mem
      have hi' : i < (l.take 10).length := by
        rw [List.length_take]
        omega
      have : (l.take 10).get ⟨i, hi'⟩ = l.get ⟨i, h⟩ := by
        simp only [List.get_eq_getElem, List.getElem_take]
      rw [← this]
      exact (l.take 10).get_mem i hi'
    have hsplit : (l.map Prod.fst).Nodup := hnd
    rw [← List.take_append_drop 10 l, List.map_append] at hsplit
    exact List.disjoint_of_nodup_append hsplit htake hmem

/-- 110 pairwise distinct single-character keys. -/
def cacheList : List (JStr × JStr) :=
  (List.range 110).map (fun i => ([Char.ofNat (65 + i)], [Char.ofNat 118]))

theorem cache_eviction_spec_witness :
    insertAll [] cacheList = cacheList.drop 10 :=
  (cache_eviction_spec cacheList (by decide) (by decide)).1

/- ===== C8 ===== -/

lemma strStartsWith_iff (p : JStr) : ∀ s : JStr,
    strStartsWith s p = true ↔ ∃ t, s = p ++ t := by
  induction p with
  | nil =>
    intro s
    simp [strStartsWith]
  | cons c ps ih =>
    intro s
    cases s with
    | nil => simp [strStartsWith]
    | cons d ds =>
      simp only [strStartsWith, Bool.and_eq_true, beq_iff_eq, ih ds, List.cons_append]
      constructor
      · rintro ⟨rfl, t, rfl⟩
        exact ⟨t, rfl⟩
      · rintro ⟨t, he⟩
        injection he with h1 h2
        exact ⟨h1, t, h2⟩

/-- The shape `data:<mime>;base64,<payload>` of the parsing regexp: a
non-empty mime free of `;`, the literal `;base64,` separator, and a non-empty
payload free of line terminators (which the regexp `.` cannot match). -/
def matchesDataUriShape (u : JStr) : Prop :=
  ∃ mime payload : JStr,
    u = str "data:" ++ mime ++ str ";base64," ++ payload
    ∧ mime ≠ [] ∧ ';' ∉ mime
    ∧ payload ≠ [] ∧ ∀ c ∈ payload, isLineTerm c = false

lemma parseDataUri_some_shape (u : JStr) (r : ParsedDataUri)
    (h : parseDataUri u = some r) : matchesDataUriShape u := by
  simp only [parseDataUri] at h
  by_cases h5 : strStartsWith u (str "data:") = true
  swap
  · rw [if_neg h5] at h
    exact absurd h (by simp)
  rw [if_pos h5] at h
  obtain ⟨rest0, hu⟩ := (strStartsWith_iff _ u).mp h5
  have hdrop : u.drop 5 = rest0 := by
    rw [hu]
    exact List.drop_left (str "data:") rest0
  rw [hdrop] at h
  split at h
  swap
  · exact absurd h (by simp)
  split at h
  swap
  · exact absurd h (by simp)
  rename_i hc1 hc2
  obtain ⟨hmne, hafter⟩ := hc1
  obtain ⟨hpne, hall⟩ := hc2
  obtain ⟨tl, haeq⟩ := (strStartsWith_iff _ _).mp hafter
  have hpayload : (rest0.dropWhile (fun c => c != ';')).drop 8 = tl := by
    rw [haeq]
    exact List.drop_left (str ";base64,") tl
  refine ⟨rest0.takeWhile (fun c => c != ';'), tl, ?_, hmne, ?_, ?_, ?_⟩
  · rw [hu]
    conv_lhs => rw [← List.takeWhile_append_dropWhile (fun c => c != ';') rest0]
    rw [haeq]
    simp [List.append_assoc]
  · intro hsemi
    have := List.mem_takeWhile_imp hsemi
    simp at this
  · rw [← hpayload]
    exact hpne
  · intro c hc
    rw [hpayload] at hall
    have := List.all_eq_true.mp hall c hc
    simpa using this

lemma parseDataUri_of_decomp (mime payload : JStr) (hm : mime ≠ [])
    (hsemi : ∀ c ∈ mime, c ≠ ';') (hp : payload ≠ [])
    (hlt : ∀ c ∈ payload, isLineTerm c = false) :
    parseDataUri (str "data:" ++ mime ++ str ";base64," ++ payload)
      = some ⟨mime, base64Decode payload⟩ := by
  have hassoc : str "data:" ++ mime ++ str ";base64," ++ payload
      = str "data:" ++ (mime ++ (str ";base64," ++ payload)) := by
    simp [List.append_assoc]
  have h5 : strStartsWith
      (str "data:" ++ mime ++ str ";base64," ++ payload) (str "data:") = true := by
    rw [hassoc]
    exact (strStartsWith_iff _ _).mpr ⟨_, rfl⟩
  have hdrop : (str "data:" ++ mime ++ str ";base64," ++ payload).drop 5
      = mime ++ (str ";base64," ++ payload) := by
    rw [hassoc]
    exact List.drop_left (str "data:") _
  have hmimeall : ∀ c ∈ mime, (fun c => c != ';') c = true := by
    intro c hc
    simpa using hsemi c hc
  have htake : (mime ++ (str ";base64," ++ payload)).takeWhile (fun c => c != ';')
      = mime := by
    rw [List.takeWhile_append_of_pos hmimeall]
    simp [str]
  have hdropw : (mime ++ (str ";base64," ++ payload)).dropWhile (fun c => c != ';')
      = str ";base64," ++ payload := by
    rw [List.dropWhile_append_of_pos hmimeall]
    simp [str]
  have hsw : strStartsWith (str ";base64," ++ payload) (str ";base64,") = true :=
    (strStartsWith_iff _ _).mpr ⟨_, rfl⟩
  have hpl : (str ";base64," ++ payload).drop 8 = payload :=
    List.drop_left (str ";base64,") payload
  simp only [parseDataUri]
  rw [if_pos h5, hdrop, htake, hdropw]
  rw [if_pos ⟨hm, hsw⟩, hpl]
  rw [if_pos ⟨hp, List.all_eq_true.mpr (fun c hc => by simpa using hlt c hc)⟩]

/-- C8: `parseDataUri` returns `null` for every string that does not match the
shape `data:<mime>;base64,<payload>` with a non-empty payload (a successful
parse forces that shape), and in particular on the empty-payload string
`data:image/png;base64,` and on `not a data uri`; being a total function, it
never throws. -/
theorem parseDataUri_failure_spec :
    (∀ u r, parseDataUri u = some r → matchesDataUriShape u)
    ∧ parseDataUri (str "data:image/png;base64,") = none
    ∧ parseDataUri (str "not a data uri") = none :=
  ⟨parseDataUri_some_shape, by decide, by decide⟩

theorem parseDataUri_failure_spec_witness :
    matchesDataUriShape (str "data:a;base64,bc") :=
  parseDataUri_failure_spec.1 (str "data:a;base64,bc")
    ⟨str "a", [109]⟩ (by decide)

/- ===== C5 ===== -/

/-- C5: for a recognized image part whose payload parses, misses the cache and
exceeds the target, an exception from the compression engine yields a result
with `failed = true`, the original part unchanged, `originalSize` equal to the
parsed payload length and `compressedSize` equal to `originalSize`; the cache
is left untouched. -/
theorem processImagePart_engine_error
    (compress : List Nat → JStr → ℚ → Except Unit CompressedImage)
    (cache : ImageCache) (part : MsgPart) (providerID : JStr)
    (parsed : ParsedDataUri) (e : Unit)
    (h1 : isImageFilePart part = true)
    (h2 : parseDataUri (part.url.getD []) = some parsed)
    (h3 : getCachedImage cache (getCacheKey providerID (part.url.getD [])) = none)
    (h4 : ((getProviderLimit providerID : Nat) : ℚ) * TARGET_MULTIPLIER
        < (parsed.data.length : ℚ))
    (h5 : compress parsed.data parsed.mime ((getProviderLimit providerID : Nat) : ℚ)
        = Except.error e) :
    processImagePart compress cache part providerID
      = (⟨part, parsed.data.length, parsed.data.length, false, true⟩, cache) := by
  simp only [processImagePart, h1, Bool.not_true, Bool.false_eq_true, if_false]
  rw [h2]
  simp only []
  rw [h3]
  simp only []
  rw [if_neg (not_le.mpr h4), h5]

/-- A payload of 8,388,608 base64 characters `A`, decoding to 6,291,456 zero
bytes — comfortably over every provider target. -/
def bigPayload : JStr := List.replicate 8388608 'A'

def bigUri : JStr := str "data:" ++ str "image/png" ++ str ";base64," ++ bigPayload

def bigPart : MsgPart := ⟨str "file", some (str "image/png"), some bigUri⟩

lemma filterMap_b64Val_replicate_A (n : Nat) :
    (List.replicate n 'A').filterMap b64Val = List.replicate n 0 := by
  have hA : b64Val 'A' = some 0 := by decide
  induction n with
  | zero => rfl
  | succ n ih => simp [List.replicate_succ, List.filterMap_cons, hA, ih]

lemma b64Group_replicate_zero_length (k : Nat) :
    (b64Group (List.replicate (4 * k) 0)).length = 3 * k := by
  induction k with
  | zero => rfl
  | succ k ih =>
    have hrep : List.replicate (4 * (k + 1)) (0 : Nat)
        = 0 :: 0 :: 0 :: 0 :: List.replicate (4 * k) 0 := by
      rw [show 4 * (k + 1) = 4 + 4 * k by omega, List.replicate_add]
      rfl
    rw [hrep, b64Group]
    simp only [List.length_cons, ih]
    omega

lemma base64Decode_bigPayload_length : (base64Decode bigPayload).length = 6291456 := by
  have h := b64Group_replicate_zero_length 2097152
  simp only [base64Decode, bigPayload,
    show (8388608 : Nat) = 4 * 2097152 by norm_num, filterMap_b64Val_replicate_A]
  rw [h]

lemma bigPayload_length : bigPayload.length = 8388608 := by
  rw [show bigPayload = List.replicate 8388608 'A' from rfl, List.length_replicate]

lemma bigPayload_ne_nil : bigPayload ≠ [] := by
  intro h
  have hlen := bigPayload_length
  rw [h] at hlen
  simp at hlen

theorem processImagePart_engine_error_witness :
    processImagePart (fun _ _ _ => Except.error ()) [] bigPart (str "anthropic")
      = (⟨bigPart, 6291456, 6291456, false, true⟩, []) := by
  have h2 : parseDataUri (bigPart.url.getD [])
      = some ⟨str "image/png", base64Decode bigPayload⟩ := by
    show parseDataUri bigUri = _
    exact parseDataUri_of_decomp (str "image/png") bigPayload (by decide) (by decide)
      bigPayload_ne_nil
      (fun c hc => by rw [List.eq_of_mem_replicate hc]; decide)
  have h4 : ((getProviderLimit (str "anthropic") : Nat) : ℚ) * TARGET_MULTIPLIER
      < (((⟨str "image/png", base64Decode bigPayload⟩ : ParsedDataUri)).data.length : ℚ) := by
    rw [show getProviderLimit (str "anthropic") = 5242880 from by decide]
    show (5242880 : ℚ) * TARGET_MULTIPLIER < ((base64Decode bigPayload).length : ℚ)
    rw [base64Decode_bigPayload_length]
    norm_num [TARGET_MULTIPLIER]
  have h1 : isImageFilePart bigPart = true := by
    simp only [isImageFilePart, bigPart]
    rw [Bool.and_eq_true]
    refine ⟨by decide, ?_⟩
    apply (strStartsWith_iff _ _).mpr
    exact ⟨str "image/png" ++ (str ";base64," ++ bigPayload),
      by simp [bigUri, List.append_assoc]⟩
  have h := processImagePart_engine_error (fun _ _ _ => Except.error ()) [] bigPart
    (str "anthropic") ⟨str "image/png", base64Decode bigPayload⟩ ()
    h1 h2 rfl h4 rfl
  rw [h]
  simp only [base64Decode_bigPayload_length]
